import Mathlib

/-!
# A leveled JSON logger (`log.go`)

Shallow embedding of `src/log.go`: the level registry `LogLevels`, the
constructor `New`, the filter `shouldLog`, the write path `Output`, the record
builder `format`, the serializer `toString` and the ten emit methods.

Modelling conventions.

* A `*Log` receiver is a `Log` value passed in and returned (explicit state
  passing).  The sink `out` is the sequence of byte strings handed to
  `io.Writer.Write`, oldest first; the `mutex` is not part of the sequential
  state and is left out.
* `os.Exit` is an explicit `Outcome.exited code l`; a call that comes back to
  its caller is `Outcome.returned l`.
* `time.Now()`, `os.Hostname()` and `os.Getpid()` are read from an `Env`.
* `interface{}` values are the closed type `GoValue`; `encoding/json` is
  modelled for those values by `encodeValue` (sorted keys, HTML-safe string
  escaping, `null` for nil maps and nil pointers, an error for channels and
  functions).
-/

set_option autoImplicit false

namespace GoLog

/-! ## Go values and `encoding/json` -/

/-- Values an `interface{}` can hold, as far as this logger can observe them
through `json.Marshal`.  `time` carries the RFC 3339 text of a `time.Time`;
`chan` and `func` stand for the kinds `encoding/json` rejects with an
`UnsupportedTypeError`. -/
inductive GoValue where
  | nil
  | bool (b : Bool)
  | int (i : Int)
  | str (s : String)
  | time (rfc3339 : String)
  | slice (xs : List GoValue)
  | nilMap
  | map (m : List (String × GoValue))
  | nilPtr
  | ptr (v : GoValue)
  | chan
  | func

/-- The source's `type MixedJSON map[string]interface{}`; `none` is the nil map. -/
abbrev MixedJSON := Option (List (String × GoValue))

/-- A `MixedJSON` stored in an `interface{}`. -/
def GoValue.ofMixedJSON : MixedJSON → GoValue
  | none => GoValue.nilMap
  | some m => GoValue.map m

/-- A `*MixedJSON` stored in an `interface{}`; `none` is the nil pointer. -/
def GoValue.ofMixedJSONPtr : Option MixedJSON → GoValue
  | none => GoValue.nilPtr
  | some m => GoValue.ptr (GoValue.ofMixedJSON m)

/-- One lowercase hexadecimal digit. -/
def hexDigit (n : Nat) : Char :=
  ("0123456789abcdef".data).getD n '0'

/-- The escape `\u00XX` the encoder emits for a control character. -/
def escapeU00 (c : Char) : List Char :=
  ['\\', 'u', '0', '0', hexDigit (c.toNat / 16), hexDigit (c.toNat % 16)]

/-- How `encoding/json` writes one rune of a string (HTML escaping on, as in
`json.Marshal`). -/
def escapeRune (c : Char) : List Char :=
  if c = '"' then ['\\', '"']
  else if c = '\\' then ['\\', '\\']
  else if c = '\n' then ['\\', 'n']
  else if c = '\r' then ['\\', 'r']
  else if c = '\t' then ['\\', 't']
  else if c.toNat = 8 then ['\\', 'b']
  else if c.toNat = 12 then ['\\', 'f']
  else if c.toNat < 32 then escapeU00 c
  else if c = '<' then "\\u003c".data
  else if c = '>' then "\\u003e".data
  else if c = '&' then "\\u0026".data
  else if c.toNat = 8232 then "\\u2028".data
  else if c.toNat = 8233 then "\\u2029".data
  else [c]

/-- A JSON string literal: the escaped runes between double quotes. -/
def encodeString (s : String) : List Char :=
  '"' :: ((s.data.map escapeRune).flatten ++ ['"'])

/-- Decimal text of a Go `int`. -/
def encodeInt (i : Int) : List Char :=
  if i < 0 then '-' :: Nat.toDigits 10 (-i).toNat else Nat.toDigits 10 i.toNat

/-- Insert an encoded member into a key-sorted list of members. -/
def insertMember (p : String × List Char) : List (String × List Char) → List (String × List Char)
  | [] => [p]
  | q :: qs => if q.1.data < p.1.data then q :: insertMember p qs else p :: q :: qs

/-- Encoded members in ascending key order (`encoding/json` sorts map keys). -/
def sortMembers : List (String × List Char) → List (String × List Char)
  | [] => []
  | p :: ps => insertMember p (sortMembers ps)

/-- Text of one object member: the key as a JSON string, a colon, the value. -/
def memberText (p : String × List Char) : List Char :=
  encodeString p.1 ++ ':' :: p.2

/-- Items separated by commas. -/
def commaJoin : List (List Char) → List Char
  | [] => []
  | [x] => x
  | x :: y :: rest => x ++ ',' :: commaJoin (y :: rest)

mutual
/-- The bytes `encoding/json` produces for a value, or `none` when it reports
an error. -/
def encodeValue : GoValue → Option (List Char)
  | GoValue.nil => some "null".data
  | GoValue.bool b => some (if b then "true".data else "false".data)
  | GoValue.int i => some (encodeInt i)
  | GoValue.str s => some (encodeString s)
  | GoValue.time t => some (encodeString t)
  | GoValue.slice xs =>
    match encodeElems xs with
    | some ys => some ('[' :: (commaJoin ys ++ [']']))
    | none => none
  | GoValue.nilMap => some "null".data
  | GoValue.map m =>
    match encodeMembers m with
    | some ys => some ('{' :: (commaJoin ((sortMembers ys).map memberText) ++ ['}']))
    | none => none
  | GoValue.nilPtr => some "null".data
  | GoValue.ptr v => encodeValue v
  | GoValue.chan => none
  | GoValue.func => none
/-- The encodings of the elements of a slice; one error fails them all. -/
def encodeElems : List GoValue → Option (List (List Char))
  | [] => some []
  | x :: xs =>
    match encodeValue x, encodeElems xs with
    | some a, some b => some (a :: b)
    | _, _ => none
/-- The encodings of the values of a map, each with its key; one error fails
them all. -/
def encodeMembers : List (String × GoValue) → Option (List (String × List Char))
  | [] => some []
  | (k, v) :: ms =>
    match encodeValue v, encodeMembers ms with
    | some a, some b => some ((k, a) :: b)
    | _, _ => none
end

/-- The call `json.Marshal(v)`: the encoded bytes, or `none` for `(nil, err)`. -/
def jsonMarshal (v : GoValue) : Option String :=
  (encodeValue v).map String.mk

/-- The parts of `strings.ToLower` that reach an ASCII letter: the ASCII
uppercase letters, U+0130 and the Kelvin sign.  Other runes are kept, which
differs from Go only on strings that are not registry names in either form. -/
def toLowerRune (c : Char) : Char :=
  if c.toNat = 304 then 'i' else if c.toNat = 8490 then 'k' else c.toLower

/-- The call `strings.ToLower(s)`. -/
def ToLower (s : String) : String :=
  String.mk (s.data.map toLowerRune)

/-! ## The logger -/

/-- The source's `Log` struct, without its mutex. -/
structure Log where
  name : String
  out : List String
  buffer : String
  logLevel : Int

/-- The source's `Formatted` struct (declared, never used). -/
structure Formatted where
  time : String
  hostname : String
  pid : Int
  level : Int
  fields : Option MixedJSON

/-- What the process environment supplies to one emit call. -/
structure Env where
  now : String
  hostname : String
  pid : Int

/-- How a call ends: back at the caller, or in `os.Exit(code)`. -/
inductive Outcome where
  | returned (l : Log)
  | exited (code : Int) (l : Log)

/-- The logger state a call leaves behind. -/
def Outcome.log : Outcome → Log
  | Outcome.returned l => l
  | Outcome.exited _ l => l

/-- The source's `LogLevels` map literal. -/
def LogLevels : List (String × Int) :=
  [("fatal", 60), ("error", 50), ("warn", 40), ("debug", 20), ("trace", 10)]

/-- The two-result lookup `v, ok := LogLevels[name]`; `none` is `ok = false`. -/
def LogLevels.lookup (name : String) : Option Int :=
  List.lookup name LogLevels

/-- The one-result index `LogLevels[name]`: the zero value when absent. -/
def LogLevels.index (name : String) : Int :=
  (LogLevels.lookup name).getD 0

/-- The method `shouldLog`. -/
def Log.shouldLog (l : Log) (level : Int) : Bool :=
  if l.logLevel ≤ level then true else false

/-- The method `Output`: truncate the buffer, append the message, write it. -/
def Log.Output (l : Log) (message : String) : Log :=
  let l1 := { l with buffer := "" }
  let l2 := { l1 with buffer := l1.buffer ++ message }
  { l2 with out := l2.out ++ [l2.buffer] }

/-- The method `format`: the record as a pointer to a map literal. -/
def Log.format (l : Log) (env : Env) (level : Int) (fields : Option MixedJSON)
    (message : GoValue) : GoValue :=
  GoValue.ptr (GoValue.map [
    ("time", GoValue.time env.now),
    ("hostname", GoValue.str env.hostname),
    ("pid", GoValue.int env.pid),
    ("level", GoValue.int level),
    ("fields", GoValue.ptr (GoValue.ofMixedJSONPtr fields)),
    ("v", GoValue.int 1),
    ("name", GoValue.str l.name),
    ("msg", message)])

/-- The method `toString`: marshal the record, drop the error, add a newline. -/
def Log.toString (l : Log) (env : Env) (level : Int) (fields : Option MixedJSON)
    (message : GoValue) : String :=
  let formatted := l.format env level fields message
  let encoded := (jsonMarshal formatted).getD ""
  encoded ++ "\n"

/-- The method `Fatalf`. -/
def Log.Fatalf (l : Log) (env : Env) (fields : MixedJSON) (message : GoValue) : Outcome :=
  let level := LogLevels.index "fatal"
  if !l.shouldLog level then Outcome.returned l
  else Outcome.exited 1 (l.Output (l.toString env level (some fields) message))

/-- The method `Errorf`. -/
def Log.Errorf (l : Log) (env : Env) (fields : MixedJSON) (message : GoValue) : Log :=
  let level := LogLevels.index "error"
  if !l.shouldLog level then l
  else l.Output (l.toString env level (some fields) message)

/-- The method `Warnf`. -/
def Log.Warnf (l : Log) (env : Env) (fields : MixedJSON) (message : GoValue) : Log :=
  let level := LogLevels.index "warn"
  if !l.shouldLog level then l
  else l.Output (l.toString env level (some fields) message)

/-- The method `Debugf`. -/
def Log.Debugf (l : Log) (env : Env) (fields : MixedJSON) (message : GoValue) : Log :=
  let level := LogLevels.index "debug"
  if !l.shouldLog level then l
  else l.Output (l.toString env level (some fields) message)

/-- The method `Tracef`. -/
def Log.Tracef (l : Log) (env : Env) (fields : MixedJSON) (message : GoValue) : Log :=
  let level := LogLevels.index "trace"
  if !l.shouldLog level then l
  else l.Output (l.toString env level (some fields) message)

/-- The method `Fatal`. -/
def Log.Fatal (l : Log) (env : Env) (message : GoValue) : Outcome :=
  l.Fatalf env none message

/-- The method `Error`. -/
def Log.Error (l : Log) (env : Env) (message : GoValue) : Log :=
  l.Errorf env none message

/-- The method `Warn`. -/
def Log.Warn (l : Log) (env : Env) (message : GoValue) : Log :=
  l.Warnf env none message

/-- The method `Debug`. -/
def Log.Debug (l : Log) (env : Env) (message : GoValue) : Log :=
  l.Debugf env none message

/-- The method `Trace`. -/
def Log.Trace (l : Log) (env : Env) (message : GoValue) : Log :=
  l.Tracef env none message

/-- The function `New`; `lookupEnv` is the result of
`os.LookupEnv("LOG_LEVEL")` (`none` when the variable is not set) and the
sink starts with nothing written by this logger. -/
def New (n : String) (lookupEnv : Option String) (env : Env) : Outcome :=
  let logger : Log :=
    { name := n, out := [], buffer := "", logLevel := LogLevels.index "error" }
  match lookupEnv with
  | none => Outcome.returned logger
  | some rawEnv =>
    match LogLevels.lookup (ToLower rawEnv) with
    | none =>
      match logger.Fatal env (GoValue.str "Bad LOG_LEVEL") with
      | Outcome.exited code l => Outcome.exited code l
      | Outcome.returned l => Outcome.exited 1 l
    | some lvl => Outcome.returned { logger with logLevel := lvl }

/-! ## Vocabulary for stating the claims -/

/-- The five levels that have emit methods. -/
inductive Level where
  | trace
  | debug
  | warn
  | error
  | fatal
  deriving DecidableEq, Repr

/-- The registry name of a level. -/
def Level.name : Level → String
  | Level.trace => "trace"
  | Level.debug => "debug"
  | Level.warn => "warn"
  | Level.error => "error"
  | Level.fatal => "fatal"

/-- The severity of a level, read from the registry as the methods do. -/
def Level.severity (L : Level) : Int :=
  LogLevels.index L.name

/-- The fields form `Lf(fields, message)` of each level. -/
def Log.emitf (l : Log) (L : Level) (env : Env) (fields : MixedJSON) (message : GoValue) :
    Outcome :=
  match L with
  | Level.trace => Outcome.returned (l.Tracef env fields message)
  | Level.debug => Outcome.returned (l.Debugf env fields message)
  | Level.warn => Outcome.returned (l.Warnf env fields message)
  | Level.error => Outcome.returned (l.Errorf env fields message)
  | Level.fatal => l.Fatalf env fields message

/-- The plain form `L(message)` of each level. -/
def Log.emit (l : Log) (L : Level) (env : Env) (message : GoValue) : Outcome :=
  match L with
  | Level.trace => Outcome.returned (l.Trace env message)
  | Level.debug => Outcome.returned (l.Debug env message)
  | Level.warn => Outcome.returned (l.Warn env message)
  | Level.error => Outcome.returned (l.Error env message)
  | Level.fatal => l.Fatal env message

/-- The value behind any chain of non-nil pointers. -/
def GoValue.deref : GoValue → GoValue
  | GoValue.ptr v => v.deref
  | v => v

/-- The keys of a record, in the order of the map literal. -/
def GoValue.keys (v : GoValue) : List String :=
  match v.deref with
  | GoValue.map m => m.map Prod.fst
  | _ => []

/-- The value a record holds under a key, as stored. -/
def GoValue.field (v : GoValue) (key : String) : Option GoValue :=
  match v.deref with
  | GoValue.map m => List.lookup key m
  | _ => none

/-- The fixed environment of the worked examples. -/
def exampleEnv : Env :=
  { now := "2024-01-02T03:04:05Z", hostname := "h", pid := 7 }

/-- The Logger named "svc" with threshold trace and an empty sink. -/
def svcLogger : Log :=
  { name := "svc", out := [], buffer := "", logLevel := 10 }

/-- One emit call: its level, the environment it runs in, its fields and its
message. -/
structure Call where
  level : Level
  env : Env
  fields : MixedJSON
  message : GoValue

/-- A sequence of fields-form emit calls on one Logger, in order; it stops at
the first call that exits the process. -/
def Log.emitAll : Log → List Call → Outcome
  | l, [] => Outcome.returned l
  | l, c :: cs =>
    match l.emitf c.level c.env c.fields c.message with
    | Outcome.returned l1 => Log.emitAll l1 cs
    | Outcome.exited code l1 => Outcome.exited code l1

/-- One write that is one line: a single newline, and it comes last. -/
def isOneLine (s : String) : Prop :=
  s.data.getLast? = some '\n' ∧ s.data.count '\n' = 1

instance (s : String) : Decidable (isOneLine s) := by
  unfold isOneLine; infer_instance

/-- The outer shape of a line holding one JSON object: it opens with a brace,
closes with a brace and a newline, and has no other newline. -/
def isObjectLine (s : String) : Prop :=
  s.data.head? = some '{' ∧ s.data.reverse.take 2 = ['\n', '}'] ∧ s.data.count '\n' = 1

instance (s : String) : Decidable (isObjectLine s) := by
  unfold isObjectLine; infer_instance

mutual
/-- Whether `encoding/json` rejects the value: a channel or a function is
reachable through slices, maps and pointers. -/
def GoValue.unsupported : GoValue → Bool
  | GoValue.slice xs => unsupportedElems xs
  | GoValue.map m => unsupportedMembers m
  | GoValue.ptr v => v.unsupported
  | GoValue.chan => true
  | GoValue.func => true
  | _ => false
/-- Whether some element of a slice is rejected. -/
def unsupportedElems : List GoValue → Bool
  | [] => false
  | x :: xs => x.unsupported || unsupportedElems xs
/-- Whether some value of a map is rejected. -/
def unsupportedMembers : List (String × GoValue) → Bool
  | [] => false
  | (_, v) :: ms => v.unsupported || unsupportedMembers ms
end

/-- The members of the encoded record in the order `encoding/json` writes them. -/
def recordMembers (l : Log) (env : Env) (level : Int) (f m : List Char) :
    List (String × List Char) :=
  [("fields", f), ("hostname", encodeString env.hostname), ("level", encodeInt level),
   ("msg", m), ("name", encodeString l.name), ("pid", encodeInt env.pid),
   ("time", encodeString env.now), ("v", encodeInt 1)]

/-- The text of the encoded record. -/
def recordText (l : Log) (env : Env) (level : Int) (f m : List Char) : List Char :=
  '{' :: (commaJoin ((recordMembers l env level f m).map memberText) ++ ['}'])

/-! ## Lemmas on the encoder -/

theorem hexDigit_ne_newline (n : Nat) : hexDigit n ≠ '\n' := by
  unfold hexDigit
  by_cases h : n < 16
  · interval_cases n <;> decide
  · have h16 : ("0123456789abcdef".data).length ≤ n := by
      have : ("0123456789abcdef".data).length = 16 := by decide
      omega
    rw [List.getD_eq_default _ _ h16]
    decide

theorem not_mem_ite {p : Prop} [Decidable p] {x : Char} {a b : List Char}
    (ha : x ∉ a) (hb : ¬p → x ∉ b) : x ∉ (if p then a else b) := by
  by_cases h : p
  · rw [if_pos h]; exact ha
  · rw [if_neg h]; exact hb h

theorem escapeRune_noNewline (c : Char) : '\n' ∉ escapeRune c := by
  unfold escapeRune
  refine not_mem_ite (by decide) fun _ => ?_
  refine not_mem_ite (by decide) fun _ => ?_
  refine not_mem_ite (by decide) fun h3 => ?_
  refine not_mem_ite (by decide) fun _ => ?_
  refine not_mem_ite (by decide) fun _ => ?_
  refine not_mem_ite (by decide) fun _ => ?_
  refine not_mem_ite (by decide) fun _ => ?_
  refine not_mem_ite ?_ fun _ => ?_
  · simp only [escapeU00, List.mem_cons, List.mem_singleton, List.not_mem_nil, or_false,
      not_or]
    exact ⟨by decide, by decide, by decide, by decide,
      fun h => hexDigit_ne_newline _ h.symm, fun h => hexDigit_ne_newline _ h.symm⟩
  refine not_mem_ite (by decide) fun _ => ?_
  refine not_mem_ite (by decide) fun _ => ?_
  refine not_mem_ite (by decide) fun _ => ?_
  refine not_mem_ite (by decide) fun _ => ?_
  refine not_mem_ite (by decide) fun _ => ?_
  simp only [List.mem_singleton]
  exact fun h => h3 h.symm

theorem encodeString_noNewline (s : String) : '\n' ∉ encodeString s := by
  unfold encodeString
  simp only [List.mem_cons, List.mem_append, List.mem_flatten, List.mem_map,
    List.mem_singleton, List.not_mem_nil, or_false, not_or]
  refine ⟨by decide, ?_, by decide⟩
  rintro ⟨l, ⟨c, _, rfl⟩, hl⟩
  exact escapeRune_noNewline c hl

theorem ite_char_ne {p : Prop} [Decidable p] {x a b : Char}
    (ha : a ≠ x) (hb : ¬p → b ≠ x) : (if p then a else b) ≠ x := by
  by_cases h : p
  · rw [if_pos h]; exact ha
  · rw [if_neg h]; exact hb h

theorem digitChar_ne_newline (n : Nat) : Nat.digitChar n ≠ '\n' := by
  unfold Nat.digitChar
  iterate 16 refine ite_char_ne (by decide) fun _ => ?_
  decide

theorem toDigitsCore_noNewline (fuel : Nat) :
    ∀ (n : Nat) (ds : List Char), '\n' ∉ ds → '\n' ∉ Nat.toDigitsCore 10 fuel n ds := by
  induction fuel with
  | zero => intro n ds h; simpa [Nat.toDigitsCore] using h
  | succ fuel ih =>
    intro n ds h
    have hd : '\n' ∉ Nat.digitChar (n % 10) :: ds := by
      simp only [List.mem_cons, not_or]
      exact ⟨fun e => digitChar_ne_newline _ e.symm, h⟩
    simp only [Nat.toDigitsCore]
    split_ifs
    · exact hd
    · exact ih _ _ hd

theorem encodeInt_noNewline (i : Int) : '\n' ∉ encodeInt i := by
  unfold encodeInt Nat.toDigits
  split_ifs
  · simp only [List.mem_cons, not_or]
    exact ⟨by decide, toDigitsCore_noNewline _ _ _ (by simp)⟩
  · exact toDigitsCore_noNewline _ _ _ (by simp)

theorem commaJoin_noNewline :
    ∀ (xs : List (List Char)), (∀ x ∈ xs, '\n' ∉ x) → '\n' ∉ commaJoin xs
  | [], _ => by simp [commaJoin]
  | [x], h => by simpa [commaJoin] using h x (by simp)
  | x :: y :: rest, h => by
    have hx := h x (by simp)
    have hr := commaJoin_noNewline (y :: rest) (fun z hz => h z (by simp [hz]))
    simp only [commaJoin, List.mem_append, List.mem_cons, not_or]
    exact ⟨hx, by decide, hr⟩

theorem mem_insertMember (p q : String × List Char) :
    ∀ (qs : List (String × List Char)), q ∈ insertMember p qs → q = p ∨ q ∈ qs
  | [], h => by simpa [insertMember] using h
  | r :: rs, h => by
    simp only [insertMember] at h
    split_ifs at h
    · rcases List.mem_cons.1 h with h | h
      · exact Or.inr (by simp [h])
      · rcases mem_insertMember p q rs h with h | h
        · exact Or.inl h
        · exact Or.inr (by simp [h])
    · rcases List.mem_cons.1 h with h | h
      · exact Or.inl h
      · exact Or.inr h

theorem mem_sortMembers (q : String × List Char) :
    ∀ (ps : List (String × List Char)), q ∈ sortMembers ps → q ∈ ps
  | [], h => by simp [sortMembers] at h
  | p :: ps, h => by
    simp only [sortMembers] at h
    rcases mem_insertMember p q _ h with h | h
    · simp [h]
    · exact List.mem_cons_of_mem _ (mem_sortMembers q ps h)

theorem memberText_noNewline (p : String × List Char) (h : '\n' ∉ p.2) :
    '\n' ∉ memberText p := by
  simp only [memberText, List.mem_append, List.mem_cons, not_or]
  exact ⟨encodeString_noNewline _, by decide, h⟩

mutual
theorem encodeValue_noNewline :
    ∀ (v : GoValue) (cs : List Char), encodeValue v = some cs → '\n' ∉ cs
  | GoValue.nil, cs, h => by
    simp only [encodeValue, Option.some.injEq] at h; subst h; decide
  | GoValue.bool b, cs, h => by
    simp only [encodeValue, Option.some.injEq] at h; subst h; cases b <;> decide
  | GoValue.int i, cs, h => by
    simp only [encodeValue, Option.some.injEq] at h; subst h; exact encodeInt_noNewline i
  | GoValue.str s, cs, h => by
    simp only [encodeValue, Option.some.injEq] at h; subst h; exact encodeString_noNewline s
  | GoValue.time t, cs, h => by
    simp only [encodeValue, Option.some.injEq] at h; subst h; exact encodeString_noNewline t
  | GoValue.slice xs, cs, h => by
    simp only [encodeValue] at h
    cases hx : encodeElems xs with
    | none => simp [hx] at h
    | some ys =>
      simp only [hx, Option.some.injEq] at h
      subst h
      have := commaJoin_noNewline ys (encodeElems_noNewline xs ys hx)
      simp only [List.mem_cons, List.mem_append, List.mem_singleton, not_or]
      exact ⟨by decide, this, by decide⟩
  | GoValue.nilMap, cs, h => by
    simp only [encodeValue, Option.some.injEq] at h; subst h; decide
  | GoValue.map m, cs, h => by
    simp only [encodeValue] at h
    cases hx : encodeMembers m with
    | none => simp [hx] at h
    | some ys =>
      simp only [hx, Option.some.injEq] at h
      subst h
      have hall : ∀ x ∈ (sortMembers ys).map memberText, '\n' ∉ x := by
        intro x hxm
        rcases List.mem_map.1 hxm with ⟨p, hp, rfl⟩
        exact memberText_noNewline p
          (encodeMembers_noNewline m ys hx p (mem_sortMembers p ys hp))
      have := commaJoin_noNewline _ hall
      simp only [List.mem_cons, List.mem_append, List.mem_singleton, not_or]
      exact ⟨by decide, this, by decide⟩
  | GoValue.nilPtr, cs, h => by
    simp only [encodeValue, Option.some.injEq] at h; subst h; decide
  | GoValue.ptr v, cs, h => by
    simp only [encodeValue] at h
    exact encodeValue_noNewline v cs h
  | GoValue.chan, cs, h => by simp [encodeValue] at h
  | GoValue.func, cs, h => by simp [encodeValue] at h
theorem encodeElems_noNewline :
    ∀ (xs : List GoValue) (ys : List (List Char)), encodeElems xs = some ys →
      ∀ y ∈ ys, '\n' ∉ y
  | [], ys, h => by
    simp only [encodeElems, Option.some.injEq] at h; subst h; simp
  | x :: xs, ys, h => by
    simp only [encodeElems] at h
    cases hx : encodeValue x with
    | none => simp [hx] at h
    | some a =>
      cases hxs : encodeElems xs with
      | none => simp [hx, hxs] at h
      | some b =>
        simp only [hx, hxs, Option.some.injEq] at h
        subst h
        intro y hy
        rcases List.mem_cons.1 hy with rfl | hy
        · exact encodeValue_noNewline x _ hx
        · exact encodeElems_noNewline xs b hxs y hy
theorem encodeMembers_noNewline :
    ∀ (m : List (String × GoValue)) (ys : List (String × List Char)),
      encodeMembers m = some ys → ∀ p ∈ ys, '\n' ∉ p.2
  | [], ys, h => by
    simp only [encodeMembers, Option.some.injEq] at h; subst h; simp
  | (k, v) :: ms, ys, h => by
    simp only [encodeMembers] at h
    cases hx : encodeValue v with
    | none => simp [hx] at h
    | some a =>
      cases hxs : encodeMembers ms with
      | none => simp [hx, hxs] at h
      | some b =>
        simp only [hx, hxs, Option.some.injEq] at h
        subst h
        intro p hp
        rcases List.mem_cons.1 hp with rfl | hp
        · exact encodeValue_noNewline v _ hx
        · exact encodeMembers_noNewline ms b hxs p hp
end

mutual
theorem encodeValue_eq_none_iff :
    ∀ (v : GoValue), encodeValue v = none ↔ v.unsupported = true
  | GoValue.nil => by simp [encodeValue, GoValue.unsupported]
  | GoValue.bool _ => by simp [encodeValue, GoValue.unsupported]
  | GoValue.int _ => by simp [encodeValue, GoValue.unsupported]
  | GoValue.str _ => by simp [encodeValue, GoValue.unsupported]
  | GoValue.time _ => by simp [encodeValue, GoValue.unsupported]
  | GoValue.slice xs => by
    have ih := encodeElems_eq_none_iff xs
    simp only [encodeValue, GoValue.unsupported]
    cases hx : encodeElems xs with
    | none => simpa [hx] using ih
    | some ys => simpa [hx] using ih
  | GoValue.nilMap => by simp [encodeValue, GoValue.unsupported]
  | GoValue.map m => by
    have ih := encodeMembers_eq_none_iff m
    simp only [encodeValue, GoValue.unsupported]
    cases hx : encodeMembers m with
    | none => simpa [hx] using ih
    | some ys => simpa [hx] using ih
  | GoValue.nilPtr => by simp [encodeValue, GoValue.unsupported]
  | GoValue.ptr v => by
    simpa [encodeValue, GoValue.unsupported] using encodeValue_eq_none_iff v
  | GoValue.chan => by simp [encodeValue, GoValue.unsupported]
  | GoValue.func => by simp [encodeValue, GoValue.unsupported]
theorem encodeElems_eq_none_iff :
    ∀ (xs : List GoValue), encodeElems xs = none ↔ unsupportedElems xs = true
  | [] => by simp [encodeElems, unsupportedElems]
  | x :: xs => by
    have ih1 := encodeValue_eq_none_iff x
    have ih2 := encodeElems_eq_none_iff xs
    simp only [encodeElems, unsupportedElems, Bool.or_eq_true]
    cases hx : encodeValue x <;> cases hxs : encodeElems xs <;>
      simp_all
theorem encodeMembers_eq_none_iff :
    ∀ (m : List (String × GoValue)), encodeMembers m = none ↔ unsupportedMembers m = true
  | [] => by simp [encodeMembers, unsupportedMembers]
  | (k, v) :: ms => by
    have ih1 := encodeValue_eq_none_iff v
    have ih2 := encodeMembers_eq_none_iff ms
    simp only [encodeMembers, unsupportedMembers, Bool.or_eq_true]
    cases hx : encodeValue v <;> cases hxs : encodeMembers ms <;>
      simp_all
end

theorem encodeValue_format (l : Log) (env : Env) (level : Int) (fields : Option MixedJSON)
    (message : GoValue) :
    encodeValue (l.format env level fields message) =
      match encodeValue (GoValue.ofMixedJSONPtr fields), encodeValue message with
      | some f, some m => some (recordText l env level f m)
      | _, _ => none := by
  simp only [Log.format, encodeValue, encodeMembers]
  cases hf : encodeValue (GoValue.ofMixedJSONPtr fields) <;>
    cases hm : encodeValue message <;> rfl

/-! ## Lemmas on the logger -/

theorem toString_eq (l : Log) (env : Env) (level : Int) (fields : Option MixedJSON)
    (message : GoValue) :
    l.toString env level fields message =
      match encodeValue (GoValue.ofMixedJSONPtr fields), encodeValue message with
      | some f, some m => String.mk (recordText l env level f m) ++ "\n"
      | _, _ => "\n" := by
  simp only [Log.toString, jsonMarshal, encodeValue_format]
  cases hf : encodeValue (GoValue.ofMixedJSONPtr fields) <;>
    cases hm : encodeValue message <;> rfl

theorem isOneLine_of_noNewline (cs : List Char) (h : '\n' ∉ cs) :
    isOneLine (String.mk cs ++ "\n") := by
  have hd : (String.mk cs ++ "\n").data = cs ++ ['\n'] := by
    simp [String.data_append]
  simp only [isOneLine, hd]
  refine ⟨by simp, ?_⟩
  rw [List.count_append, List.count_eq_zero.2 h]
  rfl

theorem toString_isOneLine (l : Log) (env : Env) (level : Int) (fields : Option MixedJSON)
    (message : GoValue) : isOneLine (l.toString env level fields message) := by
  have hrec := encodeValue_format l env level fields message
  simp only [Log.toString, jsonMarshal]
  cases h : encodeValue (l.format env level fields message) with
  | none => simp only [Option.map_none', Option.getD_none]; decide
  | some cs =>
    simp only [Option.map_some', Option.getD_some]
    exact isOneLine_of_noNewline cs (encodeValue_noNewline _ cs h)

theorem severity_cases (L : Level) :
    L.severity = 10 ∨ L.severity = 20 ∨ L.severity = 40 ∨ L.severity = 50 ∨ L.severity = 60 := by
  cases L <;> decide

theorem emitf_of_le (l : Log) (L : Level) (env : Env) (fields : MixedJSON) (message : GoValue)
    (h : l.logLevel ≤ L.severity) :
    l.emitf L env fields message =
      (if L = Level.fatal then Outcome.exited 1 else Outcome.returned)
        (l.Output (l.toString env L.severity (some fields) message)) := by
  cases L <;>
    simp only [Log.emitf, Log.Tracef, Log.Debugf, Log.Warnf, Log.Errorf, Log.Fatalf,
      Log.shouldLog, Level.severity, Level.name] at h ⊢ <;>
    simp [h]

theorem emitf_of_lt (l : Log) (L : Level) (env : Env) (fields : MixedJSON) (message : GoValue)
    (h : L.severity < l.logLevel) :
    l.emitf L env fields message = Outcome.returned l := by
  have h2 : ¬ l.logLevel ≤ L.severity := not_le.2 h
  cases L <;>
    simp only [Log.emitf, Log.Tracef, Log.Debugf, Log.Warnf, Log.Errorf, Log.Fatalf,
      Log.shouldLog, Level.severity, Level.name] at h2 ⊢ <;>
    simp [h2]

theorem emit_eq_emitf (l : Log) (L : Level) (env : Env) (message : GoValue) :
    l.emit L env message = l.emitf L env none message := by
  cases L <;> rfl

theorem log_ite (L : Level) (l : Log) :
    ((if L = Level.fatal then Outcome.exited 1 else Outcome.returned) l).log = l := by
  split_ifs <;> rfl

theorem lookup_eq_none_of_ne (name : String) (h1 : name ≠ "fatal") (h2 : name ≠ "error")
    (h3 : name ≠ "warn") (h4 : name ≠ "debug") (h5 : name ≠ "trace") :
    LogLevels.lookup name = none := by
  have e1 : (name == "fatal") = false := beq_eq_false_iff_ne.2 h1
  have e2 : (name == "error") = false := beq_eq_false_iff_ne.2 h2
  have e3 : (name == "warn") = false := beq_eq_false_iff_ne.2 h3
  have e4 : (name == "debug") = false := beq_eq_false_iff_ne.2 h4
  have e5 : (name == "trace") = false := beq_eq_false_iff_ne.2 h5
  simp only [LogLevels.lookup, LogLevels, List.lookup, e1, e2, e3, e4, e5]

theorem lookup_eq_some_iff (name : String) (v : Int) :
    LogLevels.lookup name = some v ↔
      (name = "trace" ∧ v = 10) ∨ (name = "debug" ∧ v = 20) ∨ (name = "warn" ∧ v = 40) ∨
        (name = "error" ∧ v = 50) ∨ (name = "fatal" ∧ v = 60) := by
  by_cases h1 : name = "fatal"
  · subst h1; simp [LogLevels.lookup, LogLevels, List.lookup]; omega
  by_cases h2 : name = "error"
  · subst h2; simp [LogLevels.lookup, LogLevels, List.lookup]; omega
  by_cases h3 : name = "warn"
  · subst h3; simp [LogLevels.lookup, LogLevels, List.lookup]; omega
  by_cases h4 : name = "debug"
  · subst h4; simp [LogLevels.lookup, LogLevels, List.lookup]; omega
  by_cases h5 : name = "trace"
  · subst h5; simp [LogLevels.lookup, LogLevels, List.lookup]; omega
  simp [lookup_eq_none_of_ne name h1 h2 h3 h4 h5, h1, h2, h3, h4, h5]

theorem lookup_mem_severities (name : String) (v : Int) (h : LogLevels.lookup name = some v) :
    v ∈ [(10 : Int), 20, 40, 50, 60] := by
  rcases (lookup_eq_some_iff name v).1 h with h | h | h | h | h <;> simp [h.2]

theorem index_fatal : LogLevels.index "fatal" = 60 := by decide

theorem index_error : LogLevels.index "error" = 50 := by decide

theorem Output_out (l : Log) (message : String) :
    (l.Output message).out = l.out ++ [message] := by
  simp [Log.Output]

theorem Output_buffer (l : Log) (message : String) : (l.Output message).buffer = message := by
  simp [Log.Output]

theorem Output_name (l : Log) (message : String) : (l.Output message).name = l.name := rfl

theorem Output_logLevel (l : Log) (message : String) :
    (l.Output message).logLevel = l.logLevel := rfl

theorem Fatalf_of_le (l : Log) (env : Env) (fields : MixedJSON) (message : GoValue)
    (h : l.logLevel ≤ 60) :
    l.Fatalf env fields message =
      Outcome.exited 1 (l.Output (l.toString env 60 (some fields) message)) := by
  simp [Log.Fatalf, Log.shouldLog, index_fatal, h]

theorem Fatalf_of_lt (l : Log) (env : Env) (fields : MixedJSON) (message : GoValue)
    (h : 60 < l.logLevel) : l.Fatalf env fields message = Outcome.returned l := by
  simp [Log.Fatalf, Log.shouldLog, index_fatal, not_le.2 h]

theorem New_none (n : String) (env : Env) :
    New n none env = Outcome.returned (Log.mk n [] "" 50) := rfl

theorem New_of_lookup_some (n s : String) (v : Int) (env : Env)
    (h : LogLevels.lookup (ToLower s) = some v) :
    New n (some s) env = Outcome.returned (Log.mk n [] "" v) := by
  simp [New, h]

theorem New_of_lookup_none (n s : String) (env : Env)
    (h : LogLevels.lookup (ToLower s) = none) :
    New n (some s) env =
      Outcome.exited 1 ((Log.mk n [] "" 50).Output
        ((Log.mk n [] "" 50).toString env 60 (some none) (GoValue.str "Bad LOG_LEVEL"))) := by
  have hle : (Log.mk n [] "" 50).logLevel ≤ 60 := by
    show (50 : Int) ≤ 60
    decide
  have hf := Fatalf_of_le (Log.mk n [] "" 50) env none (GoValue.str "Bad LOG_LEVEL") hle
  simp only [New, h, Log.Fatal, index_error, hf]

theorem isObjectLine_recordText (l : Log) (env : Env) (level : Int) (f m : List Char)
    (h : isOneLine (String.mk (recordText l env level f m) ++ "\n")) :
    isObjectLine (String.mk (recordText l env level f m) ++ "\n") := by
  refine ⟨?_, ?_, h.2⟩
  · simp [String.data_append, recordText]
  · simp [String.data_append, recordText]

theorem unsupported_ofMixedJSONPtr (fields : MixedJSON) :
    (GoValue.ofMixedJSONPtr (some fields)).unsupported = (GoValue.ofMixedJSON fields).unsupported := by
  simp [GoValue.ofMixedJSONPtr, GoValue.unsupported]

theorem toString_of_unsupported (l : Log) (env : Env) (level : Int) (fields : MixedJSON)
    (message : GoValue)
    (h : (GoValue.ofMixedJSON fields).unsupported = true ∨ message.unsupported = true) :
    l.toString env level (some fields) message = "\n" := by
  rw [toString_eq]
  rcases h with h | h
  · rw [← unsupported_ofMixedJSONPtr, ← encodeValue_eq_none_iff] at h
    simp [h]
  · rw [← encodeValue_eq_none_iff] at h
    rw [h]
    cases encodeValue (GoValue.ofMixedJSONPtr (some fields)) <;> rfl

theorem toString_of_supported (l : Log) (env : Env) (level : Int) (fields : MixedJSON)
    (message : GoValue) (hf : (GoValue.ofMixedJSON fields).unsupported = false)
    (hm : message.unsupported = false) :
    ∃ f m : List Char, encodeValue (GoValue.ofMixedJSON fields) = some f ∧
      encodeValue message = some m ∧
      l.toString env level (some fields) message =
        String.mk (recordText l env level f m) ++ "\n" := by
  have h1 : encodeValue (GoValue.ofMixedJSONPtr (some fields)) ≠ none := by
    rw [Ne, encodeValue_eq_none_iff, unsupported_ofMixedJSONPtr, hf]
    simp
  have h2 : encodeValue message ≠ none := by
    rw [Ne, encodeValue_eq_none_iff, hm]
    simp
  obtain ⟨f, hf2⟩ := Option.ne_none_iff_exists'.1 h1
  obtain ⟨m, hm2⟩ := Option.ne_none_iff_exists'.1 h2
  refine ⟨f, m, ?_, hm2, ?_⟩
  · simpa [GoValue.ofMixedJSONPtr, encodeValue] using hf2
  · rw [toString_eq, hf2, hm2]

theorem emitf_name_logLevel (l : Log) (L : Level) (env : Env) (fields : MixedJSON)
    (message : GoValue) :
    (l.emitf L env fields message).log.logLevel = l.logLevel ∧
      (l.emitf L env fields message).log.name = l.name := by
  by_cases h : l.logLevel ≤ L.severity
  · rw [emitf_of_le l L env fields message h, log_ite]
    exact ⟨rfl, rfl⟩
  · rw [emitf_of_lt l L env fields message (not_le.1 h)]
    exact ⟨rfl, rfl⟩

theorem foldl_Output (msgs : List String) :
    ∀ (l : Log), (msgs.foldl Log.Output l).out = l.out ++ msgs ∧
      (msgs.foldl Log.Output l).buffer = msgs.getLast?.getD l.buffer := by
  induction msgs with
  | nil => intro l; simp
  | cons x xs ih =>
    intro l
    obtain ⟨h1, h2⟩ := ih (l.Output x)
    rw [List.foldl_cons, h1, h2, Output_out, Output_buffer]
    constructor
    · simp
    · cases xs with
      | nil => simp
      | cons y ys =>
        obtain ⟨z, hz⟩ : ∃ z, (y :: ys).getLast? = some z :=
          ⟨_, List.getLast?_eq_getLast _ (List.cons_ne_nil y ys)⟩
        simp [List.getLast?_cons_cons, hz]

theorem emitf_cases (l : Log) (L : Level) (env : Env) (fields : MixedJSON)
    (message : GoValue) :
    l.emitf L env fields message = Outcome.returned l ∨
      ∃ line : String, (l.emitf L env fields message).log = l.Output line := by
  by_cases h : l.logLevel ≤ L.severity
  · right
    rw [emitf_of_le l L env fields message h, log_ite]
    exact ⟨_, rfl⟩
  · left
    exact emitf_of_lt l L env fields message (not_le.1 h)

theorem getLast?_getD_cons (x d : String) (w : List String) :
    (x :: w).getLast?.getD d = w.getLast?.getD x := by
  cases w with
  | nil => simp
  | cons y ys =>
    obtain ⟨z, hz⟩ : ∃ z, (y :: ys).getLast? = some z :=
      ⟨_, List.getLast?_eq_getLast _ (List.cons_ne_nil y ys)⟩
    simp [List.getLast?_cons_cons, hz]

theorem emitAll_buffer (calls : List Call) :
    ∀ (l : Log), ∃ w : List String, (l.emitAll calls).log.out = l.out ++ w ∧
      (l.emitAll calls).log.buffer = w.getLast?.getD l.buffer := by
  induction calls with
  | nil => intro l; exact ⟨[], by simp [Log.emitAll, Outcome.log]⟩
  | cons c cs ih =>
    intro l
    rcases emitf_cases l c.level c.env c.fields c.message with h | ⟨line, h⟩
    · simp only [Log.emitAll, h]
      exact ih l
    · cases hc : l.emitf c.level c.env c.fields c.message with
      | returned l1 =>
        rw [hc] at h
        simp only [Outcome.log] at h
        subst h
        obtain ⟨w, h1, h2⟩ := ih (l.Output line)
        refine ⟨line :: w, ?_, ?_⟩
        · simp only [Log.emitAll, hc]
          rw [h1, Output_out]
          simp
        · simp only [Log.emitAll, hc]
          rw [h2, Output_buffer, getLast?_getD_cons]
      | exited code l1 =>
        rw [hc] at h
        simp only [Outcome.log] at h
        subst h
        refine ⟨[line], ?_, ?_⟩
        · simp only [Log.emitAll, hc, Outcome.log]
          exact Output_out _ _
        · simp only [Log.emitAll, hc, Outcome.log]
          rw [Output_buffer]
          simp

theorem emitAll_logLevel (calls : List Call) :
    ∀ (l : Log), (l.emitAll calls).log.logLevel = l.logLevel ∧
      (l.emitAll calls).log.name = l.name := by
  induction calls with
  | nil => intro l; exact ⟨rfl, rfl⟩
  | cons c cs ih =>
    intro l
    have hstep := emitf_name_logLevel l c.level c.env c.fields c.message
    cases hc : l.emitf c.level c.env c.fields c.message with
    | returned l1 =>
      rw [hc] at hstep
      simp only [Outcome.log] at hstep
      simp only [Log.emitAll, hc]
      rw [(ih l1).1, (ih l1).2]
      exact hstep
    | exited code l1 =>
      rw [hc] at hstep
      simp only [Log.emitAll, hc]
      exact hstep

theorem New_logLevel_le (n : String) (lookupEnv : Option String) (env : Env) (l : Log)
    (h : New n lookupEnv env = Outcome.returned l) : l.logLevel ≤ 60 := by
  cases lookupEnv with
  | none =>
    rw [New_none] at h
    cases h
    show (50 : Int) ≤ 60
    decide
  | some s =>
    cases hs : LogLevels.lookup (ToLower s) with
    | none =>
      rw [New_of_lookup_none n s env hs] at h
      cases h
    | some v =>
      rw [New_of_lookup_some n s v env hs] at h
      cases h
      have := lookup_mem_severities _ v hs
      simp only [List.mem_cons, List.mem_singleton, List.not_mem_nil, or_false] at this
      show v ≤ 60
      omega

/-! ## The claims -/

/-- C1: for every Logger (threshold `l.logLevel`) and every level `L`, the
fields-form emit call at `L` appends exactly one write to the sink, the line
built by `toString`, which holds a single newline, at its end, when
`l.logLevel ≤ severity(L)`; when `severity(L) < l.logLevel` the call returns
the Logger unchanged (same sink, same buffer); so the sink grows by one write
if and only if `severity(L) ≥ l.logLevel`. -/
theorem emitf_writes_iff_severity_ge (l : Log) (L : Level) (env : Env) (fields : MixedJSON)
    (message : GoValue) :
    (l.logLevel ≤ L.severity →
      (l.emitf L env fields message).log.out =
          l.out ++ [l.toString env L.severity (some fields) message] ∧
        isOneLine (l.toString env L.severity (some fields) message)) ∧
    (L.severity < l.logLevel → l.emitf L env fields message = Outcome.returned l) ∧
    ((l.emitf L env fields message).log.out.length = l.out.length + 1 ↔
      l.logLevel ≤ L.severity) := by
  refine ⟨fun h => ⟨?_, toString_isOneLine _ _ _ _ _⟩, emitf_of_lt l L env fields message, ?_⟩
  · rw [emitf_of_le l L env fields message h, log_ite]
    rfl
  · constructor
    · intro hlen
      by_contra hlt
      rw [emitf_of_lt l L env fields message (not_le.1 hlt)] at hlen
      simp [Outcome.log] at hlen
    · intro h
      rw [emitf_of_le l L env fields message h, log_ite]
      simp [Log.Output]

theorem emitf_writes_iff_severity_ge_witness :
    svcLogger.logLevel ≤ Level.warn.severity ∧
    ((svcLogger.emitf Level.warn exampleEnv none (GoValue.str "hello")).log.out =
        svcLogger.out ++ [svcLogger.toString exampleEnv Level.warn.severity (some none)
          (GoValue.str "hello")] ∧
      isOneLine (svcLogger.toString exampleEnv Level.warn.severity (some none)
        (GoValue.str "hello"))) ∧
    Level.debug.severity < (Log.mk "svc" [] "" 40).logLevel ∧
    (Log.mk "svc" [] "" 40).emitf Level.debug exampleEnv none (GoValue.str "hello") =
      Outcome.returned (Log.mk "svc" [] "" 40) :=
  ⟨by decide,
   (emitf_writes_iff_severity_ge svcLogger Level.warn exampleEnv none
      (GoValue.str "hello")).1 (by decide),
   by decide,
   (emitf_writes_iff_severity_ge (Log.mk "svc" [] "" 40) Level.debug exampleEnv none
      (GoValue.str "hello")).2.1 (by decide)⟩

/-- C8: the registry lookup finds a name if and only if it is one of trace,
debug, warn, error, fatal, and then returns 10, 20, 40, 50, 60 respectively;
"info" and the uppercase or mixed-case spellings are not found. -/
theorem LogLevels_lookup_iff (name : String) (v : Int) :
    (LogLevels.lookup name = some v ↔
      (name = "trace" ∧ v = 10) ∨ (name = "debug" ∧ v = 20) ∨ (name = "warn" ∧ v = 40) ∨
        (name = "error" ∧ v = 50) ∨ (name = "fatal" ∧ v = 60)) ∧
    ((LogLevels.lookup name).isSome = true ↔
      name ∈ ["trace", "debug", "warn", "error", "fatal"]) ∧
    LogLevels.lookup "info" = none ∧ LogLevels.lookup "DEBUG" = none ∧
    LogLevels.lookup "Trace" = none ∧ LogLevels.lookup "FATAL" = none ∧
    LogLevels.lookup "" = none := by
  refine ⟨?_, ?_, by decide, by decide, by decide, by decide, by decide⟩
  · exact lookup_eq_some_iff name v
  · by_cases h1 : name = "fatal"
    · subst h1; decide
    by_cases h2 : name = "error"
    · subst h2; decide
    by_cases h3 : name = "warn"
    · subst h3; decide
    by_cases h4 : name = "debug"
    · subst h4; decide
    by_cases h5 : name = "trace"
    · subst h5; decide
    simp [lookup_eq_none_of_ne name h1 h2 h3 h4 h5, h1, h2, h3, h4, h5]

/-- C2: with no LOG_LEVEL, `New` returns a Logger with threshold 50, so its
warn, debug and trace calls leave it unchanged while its error and fatal
calls write; with a string whose lowercase form is a registry name the
threshold is that name's severity (20 for "DEBUG", "Debug", "debug"); with a
string whose lowercase form is not in the registry, such as "bogus", `New`
ends in exit status 1 and returns no Logger. -/
theorem New_resolves_threshold (n : String) (env : Env) :
    New n none env = Outcome.returned (Log.mk n [] "" 50) ∧
    (∀ (e : Env) (f : MixedJSON) (m : GoValue),
      (Log.mk n [] "" 50).Warnf e f m = Log.mk n [] "" 50 ∧
      (Log.mk n [] "" 50).Debugf e f m = Log.mk n [] "" 50 ∧
      (Log.mk n [] "" 50).Tracef e f m = Log.mk n [] "" 50 ∧
      ((Log.mk n [] "" 50).Errorf e f m).out =
        [(Log.mk n [] "" 50).toString e 50 (some f) m] ∧
      (Log.mk n [] "" 50).Fatalf e f m =
        Outcome.exited 1 ((Log.mk n [] "" 50).Output
          ((Log.mk n [] "" 50).toString e 60 (some f) m))) ∧
    (∀ (s : String) (v : Int), LogLevels.lookup (ToLower s) = some v →
      New n (some s) env = Outcome.returned (Log.mk n [] "" v)) ∧
    New n (some "DEBUG") env = Outcome.returned (Log.mk n [] "" 20) ∧
    New n (some "Debug") env = Outcome.returned (Log.mk n [] "" 20) ∧
    New n (some "debug") env = Outcome.returned (Log.mk n [] "" 20) ∧
    (∀ (s : String), LogLevels.lookup (ToLower s) = none →
      (∃ l : Log, New n (some s) env = Outcome.exited 1 l ∧ l.out.length = 1) ∧
      ∀ l : Log, New n (some s) env ≠ Outcome.returned l) ∧
    LogLevels.lookup (ToLower "bogus") = none ∧
    (∀ l : Log, New n (some "bogus") env ≠ Outcome.returned l) := by
  have hbad : ∀ (s : String), LogLevels.lookup (ToLower s) = none →
      (∃ l : Log, New n (some s) env = Outcome.exited 1 l ∧ l.out.length = 1) ∧
      ∀ l : Log, New n (some s) env ≠ Outcome.returned l := by
    intro s hs
    rw [New_of_lookup_none n s env hs]
    exact ⟨⟨_, rfl, by simp [Log.Output]⟩, fun l h => by cases h⟩
  refine ⟨rfl, ?_, fun s v h => New_of_lookup_some n s v env h,
    New_of_lookup_some n _ 20 env (by decide), New_of_lookup_some n _ 20 env (by decide),
    New_of_lookup_some n _ 20 env (by decide), hbad, by decide, (hbad "bogus" (by decide)).2⟩
  intro e f m
  refine ⟨?_, ?_, ?_, ?_, ?_⟩
  · simp [Log.Warnf, Log.shouldLog, LogLevels.index, LogLevels.lookup, LogLevels, List.lookup]
  · simp [Log.Debugf, Log.shouldLog, LogLevels.index, LogLevels.lookup, LogLevels, List.lookup]
  · simp [Log.Tracef, Log.shouldLog, LogLevels.index, LogLevels.lookup, LogLevels, List.lookup]
  · simp [Log.Errorf, Log.shouldLog, index_error, Log.Output]
  · simp [Log.Fatalf, Log.shouldLog, index_fatal]

theorem New_resolves_threshold_witness :
    LogLevels.lookup (ToLower "WARN") = some 40 ∧
      New "svc" (some "WARN") exampleEnv = Outcome.returned (Log.mk "svc" [] "" 40) ∧
    LogLevels.lookup (ToLower "verbose") = none ∧
      (∀ l : Log, New "svc" (some "verbose") exampleEnv ≠ Outcome.returned l) :=
  ⟨by decide,
   (New_resolves_threshold "svc" exampleEnv).2.2.1 "WARN" 40 (by decide),
   by decide,
   ((New_resolves_threshold "svc" exampleEnv).2.2.2.2.2.2.1 "verbose" (by decide)).2⟩

/-- C3: for every Logger, that is every Logger `New` returns, in the state any
sequence of emit calls has left it in, a fatal-level emit (`Fatalf` with any
fields, or `Fatal`) with any message appends the corresponding line to the
sink and then ends the process with status 1, which is non-zero; no such
call returns to its caller, also when the message cannot be serialised and
the line written is the bare newline. -/
theorem Fatalf_always_exits (n : String) (lookupEnv : Option String) (env : Env)
    (l0 l : Log) (calls : List Call) (h0 : New n lookupEnv env = Outcome.returned l0)
    (h1 : l0.emitAll calls = Outcome.returned l) (e : Env) (fields : MixedJSON)
    (message : GoValue) :
    l.Fatalf e fields message =
      Outcome.exited 1 (l.Output (l.toString e 60 (some fields) message)) ∧
    (l.Fatalf e fields message).log.out = l.out ++ [l.toString e 60 (some fields) message] ∧
    l.Fatal e message = Outcome.exited 1 (l.Output (l.toString e 60 (some none) message)) ∧
    (l.Fatal e message).log.out = l.out ++ [l.toString e 60 (some none) message] ∧
    (1 : Int) ≠ 0 ∧
    (∀ l2 : Log, l.Fatalf e fields message ≠ Outcome.returned l2) ∧
    (∀ l2 : Log, l.Fatal e message ≠ Outcome.returned l2) ∧
    (message.unsupported = true →
      l.Fatalf e fields message = Outcome.exited 1 (l.Output "\n")) := by
  have hle : l.logLevel ≤ 60 := by
    have hl : l.logLevel = l0.logLevel := by
      have := (emitAll_logLevel calls l0).1
      rw [h1] at this
      exact this
    rw [hl]
    exact New_logLevel_le n lookupEnv env l0 h0
  have hf := Fatalf_of_le l e fields message hle
  have hp : l.Fatal e message =
      Outcome.exited 1 (l.Output (l.toString e 60 (some none) message)) :=
    Fatalf_of_le l e none message hle
  refine ⟨hf, ?_, hp, ?_, by decide, ?_, ?_, ?_⟩
  · rw [hf]; exact Output_out _ _
  · rw [hp]; exact Output_out _ _
  · intro l2 h; rw [hf] at h; cases h
  · intro l2 h; rw [hp] at h; cases h
  · intro hm
    rw [hf, toString_of_unsupported l e 60 fields message (Or.inr hm)]

theorem Fatalf_always_exits_witness :
    New "svc" (some "Trace") exampleEnv = Outcome.returned svcLogger ∧
    svcLogger.emitAll [Call.mk Level.warn exampleEnv none (GoValue.str "x")] =
      Outcome.returned (svcLogger.Warnf exampleEnv none (GoValue.str "x")) ∧
    (svcLogger.Warnf exampleEnv none (GoValue.str "x")).Fatalf exampleEnv none
        (GoValue.str "boom") =
      Outcome.exited 1 ((svcLogger.Warnf exampleEnv none (GoValue.str "x")).Output
        ((svcLogger.Warnf exampleEnv none (GoValue.str "x")).toString exampleEnv 60
          (some none) (GoValue.str "boom"))) ∧
    GoValue.chan.unsupported = true ∧
    (svcLogger.Warnf exampleEnv none (GoValue.str "x")).Fatalf exampleEnv none GoValue.chan =
      Outcome.exited 1 ((svcLogger.Warnf exampleEnv none (GoValue.str "x")).Output "\n") :=
  ⟨rfl, rfl,
   (Fatalf_always_exits "svc" (some "Trace") exampleEnv svcLogger
      (svcLogger.Warnf exampleEnv none (GoValue.str "x"))
      [Call.mk Level.warn exampleEnv none (GoValue.str "x")] rfl rfl exampleEnv none
      (GoValue.str "boom")).1,
   by decide,
   (Fatalf_always_exits "svc" (some "Trace") exampleEnv svcLogger
      (svcLogger.Warnf exampleEnv none (GoValue.str "x"))
      [Call.mk Level.warn exampleEnv none (GoValue.str "x")] rfl rfl exampleEnv none
      GoValue.chan).2.2.2.2.2.2.2 (by decide)⟩

/-- C4, as stated, fails: with a channel as the message, or as a field value,
an unfiltered `Warnf` writes the empty line (a lone newline), which is not a
JSON object line. -/
theorem Warnf_unrepresentable_writes_empty_line :
    (svcLogger.Warnf exampleEnv none GoValue.chan).out = ["\n"] ∧
    (svcLogger.Warnf exampleEnv (some [("c", GoValue.chan)]) (GoValue.str "hello")).out =
      ["\n"] ∧
    ¬ isObjectLine "\n" := by
  refine ⟨by decide, by decide, by decide⟩

/-- C4, amended: for every Logger and every message and fields, an unfiltered
emit call completes exactly one write, of one line; when the message or a
field value cannot be represented in JSON (a channel or function is reachable
in it) that line is empty, a lone newline; otherwise it is the brace-delimited
encoding of the record followed by a newline. -/
theorem emitf_line_shape (l : Log) (L : Level) (env : Env) (fields : MixedJSON)
    (message : GoValue) (h : l.logLevel ≤ L.severity) :
    (l.emitf L env fields message).log.out =
        l.out ++ [l.toString env L.severity (some fields) message] ∧
    isOneLine (l.toString env L.severity (some fields) message) ∧
    ((GoValue.ofMixedJSON fields).unsupported = true ∨ message.unsupported = true →
      l.toString env L.severity (some fields) message = "\n") ∧
    ((GoValue.ofMixedJSON fields).unsupported = false → message.unsupported = false →
      isObjectLine (l.toString env L.severity (some fields) message) ∧
      ∃ f m : List Char, encodeValue (GoValue.ofMixedJSON fields) = some f ∧
        encodeValue message = some m ∧
        l.toString env L.severity (some fields) message =
          String.mk (recordText l env L.severity f m) ++ "\n") := by
  refine ⟨?_, toString_isOneLine _ _ _ _ _, toString_of_unsupported l env _ fields message, ?_⟩
  · rw [emitf_of_le l L env fields message h, log_ite]
    exact Output_out _ _
  · intro hf hm
    obtain ⟨f, m, h1, h2, h3⟩ := toString_of_supported l env L.severity fields message hf hm
    refine ⟨?_, f, m, h1, h2, h3⟩
    have hone := toString_isOneLine l env L.severity (some fields) message
    rw [h3] at hone ⊢
    exact isObjectLine_recordText l env L.severity f m hone

theorem emitf_line_shape_witness :
    svcLogger.logLevel ≤ Level.warn.severity ∧
    (GoValue.ofMixedJSON none).unsupported = false ∧ (GoValue.str "hello").unsupported = false ∧
    isObjectLine (svcLogger.toString exampleEnv Level.warn.severity (some none)
      (GoValue.str "hello")) ∧
    (GoValue.chan.unsupported = true ∧
      svcLogger.toString exampleEnv Level.warn.severity (some none) GoValue.chan = "\n") :=
  ⟨by decide, by decide, by decide,
   ((emitf_line_shape svcLogger Level.warn exampleEnv none (GoValue.str "hello")
      (by decide)).2.2.2 (by decide) (by decide)).1,
   by decide,
   (emitf_line_shape svcLogger Level.warn exampleEnv none GoValue.chan
      (by decide)).2.2.1 (Or.inr (by decide))⟩

/-- C5: for every Logger state and every serialized record `s`, `Output`
applied to `s` plus a newline leaves the buffer holding exactly those bytes
and appends exactly those bytes to the sink, whatever the buffer held before;
`toString` yields the marshalled record plus one newline; and after any
sequence of writes, or of emit calls, the buffer is the last line written (or
what it was, when nothing was written), so its length is that line's length,
while the sink has received every line in order. -/
theorem Output_resets_buffer (l : Log) (s : String) (env : Env) (level : Int)
    (fields : Option MixedJSON) (message : GoValue) (msgs : List String) (last : String)
    (calls : List Call) :
    (l.Output (s ++ "\n")).buffer = s ++ "\n" ∧
    (l.Output (s ++ "\n")).out = l.out ++ [s ++ "\n"] ∧
    l.toString env level fields message =
      (jsonMarshal (l.format env level fields message)).getD "" ++ "\n" ∧
    (l.Output (l.toString env level fields message)).buffer =
      l.toString env level fields message ∧
    ((msgs ++ [last]).foldl Log.Output l).buffer = last ∧
    ((msgs ++ [last]).foldl Log.Output l).buffer.length = last.length ∧
    ((msgs ++ [last]).foldl Log.Output l).out = l.out ++ (msgs ++ [last]) ∧
    (∃ w : List String, (l.emitAll calls).log.out = l.out ++ w ∧
      (l.emitAll calls).log.buffer = w.getLast?.getD l.buffer ∧
      (l.emitAll calls).log.buffer.length = (w.getLast?.getD l.buffer).length) := by
  obtain ⟨h1, h2⟩ := foldl_Output (msgs ++ [last]) l
  have h3 : ((msgs ++ [last]).foldl Log.Output l).buffer = last := by
    rw [h2]; simp
  obtain ⟨w, h4, h5⟩ := emitAll_buffer calls l
  exact ⟨Output_buffer _ _, Output_out _ _, rfl, Output_buffer _ _, h3, by rw [h3], h1,
    w, h4, h5, by rw [h5]⟩

/-- C6: for every Logger name, level severity `s`, fields mapping `f` and
message `m`, the record `format` builds has exactly the eight keys time,
hostname, pid, level, fields, v, name, msg, with level = `s`, name = the
Logger's name, msg = `m`, fields = `f` and v = 1; the Logger named "svc" with
threshold trace calling `Warnf` with fields a = 1 and message "hello" writes
the one line whose object has level 40, name "svc", msg "hello", fields with
a = 1 and v = 1. -/
theorem format_record (l : Log) (env : Env) (s : Int) (f : MixedJSON) (m : GoValue) :
    (l.format env s (some f) m).keys =
      ["time", "hostname", "pid", "level", "fields", "v", "name", "msg"] ∧
    (l.format env s (some f) m).field "level" = some (GoValue.int s) ∧
    (l.format env s (some f) m).field "name" = some (GoValue.str l.name) ∧
    (l.format env s (some f) m).field "msg" = some m ∧
    ((l.format env s (some f) m).field "fields").map GoValue.deref =
      some (GoValue.ofMixedJSON f) ∧
    (l.format env s (some f) m).field "v" = some (GoValue.int 1) ∧
    (l.format env s (some f) m).field "time" = some (GoValue.time env.now) ∧
    (l.format env s (some f) m).field "hostname" = some (GoValue.str env.hostname) ∧
    (l.format env s (some f) m).field "pid" = some (GoValue.int env.pid) ∧
    ((svcLogger.format exampleEnv 40 (some (some [("a", GoValue.int 1)]))
        (GoValue.str "hello")).field "fields").map GoValue.deref =
      some (GoValue.map [("a", GoValue.int 1)]) ∧
    (svcLogger.Warnf exampleEnv (some [("a", GoValue.int 1)]) (GoValue.str "hello")).out =
      ["\x7b\"fields\":\x7b\"a\":1\x7d,\"hostname\":\"h\",\"level\":40,\"msg\":\"hello\",\"name\":\"svc\",\"pid\":7,\"time\":\"2024-01-02T03:04:05Z\",\"v\":1\x7d\n"] := by
  refine ⟨rfl, rfl, rfl, rfl, ?_, rfl, rfl, rfl, rfl, rfl, by decide⟩
  cases f <;> rfl

/-- C7: for every level `L`, Logger state and message, the plain form `L(m)`
is the fields form `Lf(nil, m)`: the two calls have the same outcome and leave
the same Logger state, they are filtered by the same test, and the record they
build has the fields key present, holding the nil map, which is encoded as
null. -/
theorem plain_form_eq_fields_form (l : Log) (L : Level) (env : Env) (m : GoValue) :
    l.emit L env m = l.emitf L env none m ∧
    (l.emit L env m).log = (l.emitf L env none m).log ∧
    ((l.emit L env m = Outcome.returned l ∧ l.emitf L env none m = Outcome.returned l) ∨
      ((l.emit L env m).log.out = l.out ++ [l.toString env L.severity (some none) m] ∧
        (l.emitf L env none m).log.out = l.out ++ [l.toString env L.severity (some none) m])) ∧
    "fields" ∈ (l.format env L.severity (some none) m).keys ∧
    ((l.format env L.severity (some none) m).field "fields").map GoValue.deref =
      some GoValue.nilMap ∧
    encodeValue (GoValue.ofMixedJSONPtr (some none)) = some "null".data ∧
    l.toString env L.severity (some none) m =
      match encodeValue m with
      | some cs => String.mk (recordText l env L.severity "null".data cs) ++ "\n"
      | none => "\n" := by
  have he := emit_eq_emitf l L env m
  have hk : "fields" ∈ (l.format env L.severity (some none) m).keys := by
    show "fields" ∈ ["time", "hostname", "pid", "level", "fields", "v", "name", "msg"]
    decide
  refine ⟨he, by rw [he], ?_, hk, rfl, rfl, ?_⟩
  · rw [he]
    by_cases h : l.logLevel ≤ L.severity
    · right
      rw [emitf_of_le l L env none m h, log_ite]
      exact ⟨Output_out _ _, Output_out _ _⟩
    · left
      exact ⟨emitf_of_lt l L env none m (not_le.1 h), emitf_of_lt l L env none m (not_le.1 h)⟩
  · rw [toString_eq]
    have hn : encodeValue (GoValue.ofMixedJSONPtr (some none)) = some "null".data := rfl
    rw [hn]
    cases encodeValue m <;> rfl

/-- C10: every Logger returned by `New` has a threshold among 10, 20, 40, 50,
60 and the name it was given; no emit operation, plain or with fields, changes
the threshold or the name of any Logger; so for a Logger returned by `New`, if
a call at level `L` is written then a call at any level of at least that
severity is written, and a fatal-level call is never filtered: it writes its
line and exits with status 1. -/
theorem New_threshold_in_registry (n : String) (lookupEnv : Option String) (env : Env)
    (l : Log) (h : New n lookupEnv env = Outcome.returned l) :
    l.logLevel ∈ [(10 : Int), 20, 40, 50, 60] ∧ l.name = n ∧
    (∀ (l2 : Log) (L : Level) (e : Env) (f : MixedJSON) (m : GoValue),
      (l2.emitf L e f m).log.logLevel = l2.logLevel ∧ (l2.emitf L e f m).log.name = l2.name ∧
      (l2.emit L e m).log.logLevel = l2.logLevel ∧ (l2.emit L e m).log.name = l2.name) ∧
    (∀ (L L2 : Level) (e e2 : Env) (f f2 : MixedJSON) (m m2 : GoValue),
      (l.emitf L e f m).log.out ≠ l.out → L.severity ≤ L2.severity →
        (l.emitf L2 e2 f2 m2).log.out = l.out ++ [l.toString e2 L2.severity (some f2) m2]) ∧
    (∀ (e : Env) (f : MixedJSON) (m : GoValue),
      l.Fatalf e f m = Outcome.exited 1 (l.Output (l.toString e 60 (some f) m)) ∧
      (l.Fatalf e f m).log.out = l.out ++ [l.toString e 60 (some f) m]) := by
  have hmem : l.logLevel ∈ [(10 : Int), 20, 40, 50, 60] ∧ l.name = n := by
    cases lookupEnv with
    | none =>
      rw [New_none] at h
      cases h
      exact ⟨by show (50 : Int) ∈ [(10 : Int), 20, 40, 50, 60]; decide, rfl⟩
    | some s =>
      cases hs : LogLevels.lookup (ToLower s) with
      | none =>
        rw [New_of_lookup_none n s env hs] at h
        cases h
      | some v =>
        rw [New_of_lookup_some n s v env hs] at h
        cases h
        exact ⟨lookup_mem_severities _ v hs, rfl⟩
  have hle : l.logLevel ≤ 60 := by
    have := hmem.1
    simp only [List.mem_cons, List.mem_singleton, List.not_mem_nil, or_false] at this
    omega
  refine ⟨hmem.1, hmem.2, ?_, ?_, ?_⟩
  · intro l2 L e f m
    rw [emit_eq_emitf]
    exact ⟨(emitf_name_logLevel l2 L e f m).1, (emitf_name_logLevel l2 L e f m).2,
      (emitf_name_logLevel l2 L e none m).1, (emitf_name_logLevel l2 L e none m).2⟩
  · intro L L2 e e2 f f2 m m2 hw hsev
    have h1 : l.logLevel ≤ L.severity := by
      by_contra hlt
      rw [emitf_of_lt l L e f m (not_le.1 hlt)] at hw
      exact hw rfl
    rw [emitf_of_le l L2 e2 f2 m2 (le_trans h1 hsev), log_ite]
    exact Output_out _ _
  · intro e f m
    rw [Fatalf_of_le l e f m hle]
    exact ⟨rfl, Output_out _ _⟩

theorem New_threshold_in_registry_witness :
    New "svc" (some "Trace") exampleEnv = Outcome.returned svcLogger ∧
    svcLogger.logLevel ∈ [(10 : Int), 20, 40, 50, 60] ∧
    (svcLogger.emitf Level.debug exampleEnv none (GoValue.str "x")).log.out ≠ svcLogger.out ∧
    Level.debug.severity ≤ Level.error.severity ∧
    (svcLogger.emitf Level.error exampleEnv none (GoValue.str "y")).log.out =
      svcLogger.out ++ [svcLogger.toString exampleEnv Level.error.severity (some none)
        (GoValue.str "y")] :=
  ⟨rfl,
   (New_threshold_in_registry "svc" (some "Trace") exampleEnv svcLogger rfl).1,
   by decide, by decide,
   (New_threshold_in_registry "svc" (some "Trace") exampleEnv svcLogger
      rfl).2.2.2.1 Level.debug Level.error exampleEnv exampleEnv none none
      (GoValue.str "x") (GoValue.str "y") (by decide) (by decide)⟩

end GoLog
